import Mathlib

/-!
Verification development for the morphic LLM-orchestration core.

The definitions below are a shallow embedding of the TypeScript source:

* `lib/llm/config.ts`   — message/chunk data model, `withRetry`;
* `lib/llm/memory.ts`   — `MemoryManager` (load/save/addMessage, pruning,
  summary generation);
* `lib/redis.ts`        — the keyed store (`setWithExpiry`/`getAndParse`),
  modelled as an association list of parsed JSON values (the JSON tree
  stands for the serialized string produced by `JSON.stringify` and read
  back by `JSON.parse`);
* `lib/llm/client.ts`   — `LLMClient.generateResponse` /
  `generateStreamingResponse`, with each provider call modelled by its
  outcome (the mocks in the repository's tests behave the same way);
* `lib/llm/providers/*` — the buffered and streaming provider entry
  points, with the per-frame lexical layer (TextDecoder / JSON.parse /
  the text regex) modelled by the classification of each frame that the
  source's parse rules induce;
* `lib/llm/factory.ts`  — `LLMFactory.getProvider` and the process-wide
  provider cache, with construction identity made explicit by a counter.

Timestamps (`Date.now()`) are passed in explicitly as `Nat` arguments.
Effectful signatures (`Promise`, async generators) become pure functions
returning the value together with the updated store and the observable
call traces; a thrown error is an `Except.error`.
-/

namespace Morphic


/-- Message roles, from the `LLMMessage` interface in `lib/llm/config.ts`. -/
inductive Role where
  | system
  | user
  | assistant
deriving DecidableEq, Repr

/-- Model of `LLMMessage` from `lib/llm/config.ts`: role, content and an optional name. -/
structure LLMMessage where
  role : Role
  content : String
  name : Option String := none
deriving DecidableEq, Repr

/-- Model of `LLMResponseChunk` from `lib/llm/config.ts`: one streamed fragment. -/
structure LLMResponseChunk where
  content : String
  done : Bool
deriving DecidableEq, Repr

/-- Model of `ConversationState` from `lib/llm/memory.ts`. -/
structure ConversationState where
  messages : List LLMMessage
  summary : Option String
  createdAt : Nat
  updatedAt : Nat
deriving DecidableEq, Repr

/-- JSON value trees, standing for the strings produced by `JSON.stringify`
and consumed by `JSON.parse` in `lib/redis.ts`. -/
inductive Json where
  | str (s : String)
  | num (n : Nat)
  | arr (xs : List Json)
  | obj (fields : List (String × Json))

/-- The role names used by `JSON.stringify` for the `role` field. -/
def Role.toJsonString : Role → String
  | .system => "system"
  | .user => "user"
  | .assistant => "assistant"

/-- Reading a `role` field back, as `JSON.parse` restores the same literal. -/
def roleOfString (s : String) : Option Role :=
  if s = "system" then some .system
  else if s = "user" then some .user
  else if s = "assistant" then some .assistant
  else none

/-- Field lookup in a parsed JSON object. -/
def jGet : List (String × Json) → String → Option Json
  | [], _ => none
  | (k, v) :: rest, key => if k = key then some v else jGet rest key

/-- Model of `JSON.stringify` on one `LLMMessage`; an absent optional `name` field is
dropped, exactly as `JSON.stringify` drops `undefined` properties. -/
def encodeMessage (m : LLMMessage) : Json :=
  .obj ([("role", .str m.role.toJsonString), ("content", .str m.content)] ++
    (match m.name with
     | some n => [("name", Json.str n)]
     | none => []))

/-- Model of `JSON.parse` of one message object. -/
def decodeMessage : Json → Option LLMMessage
  | .obj fields =>
    match jGet fields "role", jGet fields "content" with
    | some (.str rs), some (.str c) =>
      match roleOfString rs with
      | some r =>
        match jGet fields "name" with
        | none => some { role := r, content := c, name := none }
        | some (.str n) => some { role := r, content := c, name := some n }
        | some _ => none
      | none => none
    | _, _ => none
  | _ => none

/-- Model of `JSON.parse` of the message array. -/
def decodeMessages : List Json → Option (List LLMMessage)
  | [] => some []
  | j :: rest =>
    match decodeMessage j, decodeMessages rest with
    | some m, some ms => some (m :: ms)
    | _, _ => none

/-- Model of `JSON.stringify` of a whole `ConversationState`; the optional `summary`
field is dropped when absent. -/
def encodeConv (c : ConversationState) : Json :=
  .obj ([("messages", .arr (c.messages.map encodeMessage))] ++
    (match c.summary with
     | some s => [("summary", Json.str s)]
     | none => []) ++
    [("createdAt", .num c.createdAt), ("updatedAt", .num c.updatedAt)])

/-- Model of `JSON.parse` of a stored conversation blob (`getAndParse<ConversationState>`). -/
def decodeConv : Json → Option ConversationState
  | .obj fields =>
    match jGet fields "messages", jGet fields "createdAt", jGet fields "updatedAt" with
    | some (.arr js), some (.num ca), some (.num ua) =>
      match decodeMessages js with
      | some ms =>
        match jGet fields "summary" with
        | none => some { messages := ms, summary := none, createdAt := ca, updatedAt := ua }
        | some (.str s) => some { messages := ms, summary := some s, createdAt := ca, updatedAt := ua }
        | some _ => none
      | none => none
    | _, _, _ => none
  | _ => none

/-- The keyed store of `lib/redis.ts`: key to serialized blob.  Expiry is the
external store's concern (`{ ex: ttl }` is passed through to it). -/
def Store : Type := List (String × Json)

/-- Model of `kv.get`. -/
def storeGet : Store → String → Option Json
  | [], _ => none
  | (k, v) :: rest, key => if k = key then some v else storeGet rest key

/-- Model of `kv.set` (last write wins). -/
def storeSet (s : Store) (key : String) (v : Json) : Store :=
  (key, v) :: s

/-! ## Conversation memory (`lib/llm/memory.ts`) -/

/-- Model of `MEMORY_EXPIRY_SECONDS` (24 hours). -/
def MemoryManager.MEMORY_EXPIRY_SECONDS : Nat := 24 * 60 * 60

/-- Model of `SUMMARY_MESSAGE_THRESHOLD`: generate a summary after this many messages. -/
def MemoryManager.SUMMARY_MESSAGE_THRESHOLD : Nat := 10

/-- Model of `MAX_MESSAGES_TO_KEEP`: maximum number of messages to store. -/
def MemoryManager.MAX_MESSAGES_TO_KEEP : Nat := 50

/-- Model of `getRedisKey`: the `conv:` namespaced key. -/
def MemoryManager.getRedisKey (conversationId : String) : String :=
  "conv:" ++ conversationId

/-- Model of `loadConversation`: `getAndParse<ConversationState>(redisKey)` — read the
blob and parse it; `none` when the key is absent. -/
def MemoryManager.loadConversation (store : Store) (conversationId : String) :
    Option ConversationState :=
  (storeGet store (MemoryManager.getRedisKey conversationId)).bind decodeConv

/-- Model of `saveConversation`: sets `state.updatedAt = Date.now()` (mutating the
caller's record, which the returned first component models) and then calls
`setWithExpiry(redisKey, state, MEMORY_EXPIRY_SECONDS)`.  The pure store
always accepts the write. -/
def MemoryManager.saveConversation (store : Store) (conversationId : String)
    (state : ConversationState) (now : Nat) : ConversationState × Store :=
  let state := { state with updatedAt := now }
  (state, storeSet store (MemoryManager.getRedisKey conversationId) (encodeConv state))

/-- The JS truthiness test `!conversation.summary`: true for an absent summary
and for the empty string. -/
def summaryFalsy : Option String → Bool
  | none => true
  | some s => decide (s = "")

/-- Model of `c = '.' || c = '!' || c = '?'`, the sentence-terminator class of the
regex `/[.!?]/` used by `generateConversationSummary`. -/
def isSentenceTerminator (c : Char) : Bool :=
  c = '.' || c = '!' || c = '?'

/-- First-sentence extraction for one user message: split on `/[.!?]/`, keep
the first segment with non-blank trim, re-trim it and append a period;
produce `""` when no segment qualifies. -/
def firstSentenceOf (content : String) : String :=
  match ((content.split isSentenceTerminator).filter
      (fun s => 0 < s.trim.length)).head? with
  | some s => s.trim ++ "."
  | none => ""

/-- Model of `generateConversationSummary`: extract the first sentence of every
user-authored message, keep the last five, and join them into one line. -/
def MemoryManager.generateConversationSummary (messages : List LLMMessage) : String :=
  let userMessages := (messages.filter (fun m => m.role = Role.user)).map LLMMessage.content
  if userMessages.isEmpty then
    "No conversation history."
  else
    let sentences := (userMessages.map firstSentenceOf).filter (fun s => 0 < s.length)
    let topicSentences := sentences.drop (sentences.length - 5)
    "The conversation covers these topics: " ++ String.intercalate " " topicSentences

/-- The `systemMessage` computed inside `addMessage`'s pruning branch:
`messages[0].role === 'system' ? [messages[0]] : []`. -/
def leadingSystem : List LLMMessage → List LLMMessage
  | [] => []
  | m :: _ => if m.role = Role.system then [m] else []

/-- The result of one pruning pass over a too-long list: the retained leading
system message (if any) followed by the
`slice(-MAX_MESSAGES_TO_KEEP + systemMessage.length)` most recent messages.
For a list longer than `MAX_MESSAGES_TO_KEEP` the negative `slice` start is
`length - (MAX_MESSAGES_TO_KEEP - systemMessage.length)` from the front. -/
def evictedForm (msgs : List LLMMessage) : List LLMMessage :=
  leadingSystem msgs ++
    msgs.drop (msgs.length -
      (MemoryManager.MAX_MESSAGES_TO_KEEP - (leadingSystem msgs).length))

/-- The pruning step of `addMessage`: when the list exceeds
`MAX_MESSAGES_TO_KEEP`, keep `messages[0]` if it is a system message and then
the most recent messages filling the rest of the budget. -/
def pruneMessages (msgs : List LLMMessage) : List LLMMessage :=
  if MemoryManager.MAX_MESSAGES_TO_KEEP < msgs.length then evictedForm msgs
  else msgs

/-- The state transformation of `addMessage` on the loaded (or fresh)
conversation: push the message, prune, then generate the summary when the
count has reached the threshold and `!conversation.summary`. -/
def MemoryManager.addMessageState (conv : Option ConversationState)
    (message : LLMMessage) (now : Nat) : ConversationState :=
  let c := conv.getD { messages := [], summary := none, createdAt := now, updatedAt := now }
  let msgs := pruneMessages (c.messages ++ [message])
  let summary :=
    if MemoryManager.SUMMARY_MESSAGE_THRESHOLD ≤ msgs.length ∧ summaryFalsy c.summary = true then
      some (MemoryManager.generateConversationSummary msgs)
    else c.summary
  { messages := msgs, summary := summary, createdAt := c.createdAt, updatedAt := now }

/-- Model of `addMessage`: load-or-create, push, prune, summarize if due, save.  The
pure store's save always succeeds, so the updated state is returned. -/
def MemoryManager.addMessage (store : Store) (conversationId : String)
    (message : LLMMessage) (now : Nat) : ConversationState × Store :=
  let state := MemoryManager.addMessageState
    (MemoryManager.loadConversation store conversationId) message now
  MemoryManager.saveConversation store conversationId state now

/-- A run of `addMessage` calls on one conversation key (the sequence of
appends the spec's properties quantify over). -/
def MemoryManager.appendAll (store : Store) (conversationId : String) (now : Nat) :
    List LLMMessage → Store
  | [] => store
  | m :: ms =>
    MemoryManager.appendAll (MemoryManager.addMessage store conversationId m now).2
      conversationId now ms

/-- The same run at the level of conversation states. -/
def MemoryManager.foldState (conv : Option ConversationState) (now : Nat) :
    List LLMMessage → Option ConversationState
  | [] => conv
  | m :: ms =>
    MemoryManager.foldState (some (MemoryManager.addMessageState conv m now)) now ms

/-! ## Summary behaviour -/

/-! ## Retry policy (`withRetry` in `lib/llm/config.ts`) -/

/-- The observable outcome of a `withRetry` run: the settled result, the
backoff sleeps awaited (in order), and how many times the operation was
invoked.  `Except.error none` stands for the synthetic
`'All retry attempts failed'` error thrown when the loop body never ran. -/
structure RetryTrace (ε α : Type) where
  result : Except (Option ε) α
  sleeps : List Nat
  calls : Nat

/-- The retry loop of `withRetry`: the operation is modelled by the outcome
of its `i`-th invocation; `attempt` is the zero-indexed loop counter, `fuel`
the remaining iterations of
`for (let attempt = 0; attempt < maxRetries; attempt++)`, and the third
argument the current `lastError`.  On every failure the loop awaits
`baseDelay * 2 ** attempt` before the next iteration (also after the final
failed attempt, exactly as in the source). -/
def withRetryGo (fn : Nat → Except ε α) (baseDelay : Nat) :
    Nat → Nat → Option ε → RetryTrace ε α
  | 0, _, lastError => { result := .error lastError, sleeps := [], calls := 0 }
  | fuel + 1, attempt, _ =>
    match fn attempt with
    | .ok v => { result := .ok v, sleeps := [], calls := 1 }
    | .error e =>
      let rest := withRetryGo fn baseDelay fuel (attempt + 1) (some e)
      { result := rest.result,
        sleeps := baseDelay * 2 ^ attempt :: rest.sleeps,
        calls := rest.calls + 1 }

/-- Model of `withRetry(fn, maxRetries = 3, baseDelay = 1000)`. -/
def withRetry (fn : Nat → Except ε α) (maxRetries : Nat) (baseDelay : Nat) :
    RetryTrace ε α :=
  withRetryGo fn baseDelay maxRetries 0 none

/-! ## Client orchestration (`lib/llm/client.ts`)

A provider's buffered `generateResponse` call is modelled by its outcome
(`Except.ok` with the resolved text, `Except.error` with the rejection), the
way the repository's own tests mock providers; the inputs of the call
(system prompt, history, temperature) do not influence the orchestration
control flow and are therefore not threaded into the outcome. -/

/-- The literal returned by `LLMClient.generateResponse`'s outermost catch
(the same literal every provider's buffered recovery returns). -/
def generateApology : String :=
  "Sorry, I encountered an error while processing your request. Please try again later."

/-- The literal used on the streaming error paths of the client and of every
provider. -/
def streamingApology : String :=
  "Sorry, I encountered an error while processing your streaming request. Please try again later."

/-- Everything observable about one `LLMClient.generateResponse` call: the
string returned to the caller, the store after the call, and how often the
primary and each fallback provider's `generateResponse` ran. -/
structure GenOutcome where
  response : String
  store : Store
  primaryCalls : Nat
  fallbackCalls : List Nat

/-- The `for (const fallbackProvider of this.fallbackProviders)` loop: each
fallback is tried in order; the first success is persisted (when memory is
on) and returned; each failure is swallowed and the next fallback tried. -/
def walkFallbacks (store : Store) (conversationId : String) (useMemory : Bool)
    (t : Nat) : List (Except String String) → Option (String × Store) × List Nat
  | [] => (none, [])
  | Except.ok r :: rest =>
    (some (r,
        if useMemory then
          (MemoryManager.addMessage store conversationId
            { role := Role.assistant, content := r } t).2
        else store),
      1 :: rest.map (fun _ => 0))
  | Except.error _ :: rest =>
    let w := walkFallbacks store conversationId useMemory t rest
    (w.1, 1 :: w.2)

/-- Model of `LLMClient.generateResponse`: persist the user turn (when memory is on),
call the primary provider once, on failure walk the fallback chain, and if
everything failed let the outer catch turn the rethrown original error into
the literal apology.  The embedding is a total function: no exception leaves
it, mirroring the outer try/catch. -/
def LLMClient.generateResponse (store : Store) (conversationId : String)
    (useMemory : Bool) (prompt : String) (t : Nat)
    (primary : Except String String)
    (fallbacks : List (Except String String)) : GenOutcome :=
  let store1 :=
    if useMemory then
      (MemoryManager.addMessage store conversationId
        { role := Role.user, content := prompt } t).2
    else store
  match primary with
  | Except.ok r =>
    { response := r,
      store :=
        if useMemory then
          (MemoryManager.addMessage store1 conversationId
            { role := Role.assistant, content := r } t).2
        else store1,
      primaryCalls := 1,
      fallbackCalls := fallbacks.map (fun _ => 0) }
  | Except.error _ =>
    match walkFallbacks store1 conversationId useMemory t fallbacks with
    | (some (r, store2), counts) =>
      { response := r, store := store2, primaryCalls := 1, fallbackCalls := counts }
    | (none, counts) =>
      { response := generateApology, store := store1,
        primaryCalls := 1, fallbackCalls := counts }

/-- A provider's streaming call as the client observes it: the chunks the
generator yielded, and whether it then raised (aborting the stream) instead
of finishing. -/
structure StreamBehavior where
  chunks : List LLMResponseChunk
  fails : Bool

/-- Everything observable about one `LLMClient.generateStreamingResponse`
call: the returned full response, the `onChunk(content, done)` invocations in
order, and the store afterwards. -/
structure StreamOutcome where
  response : String
  calls : List (String × Bool)
  store : Store

/-- The `onChunk` invocations produced while consuming one chunk sequence. -/
def chunkCalls (cs : List LLMResponseChunk) : List (String × Bool) :=
  cs.map (fun c => (c.content, c.done))

/-- Model of `fullResponse += chunk.content` over a consumed sequence. -/
def accumulateChunks (cs : List LLMResponseChunk) : String :=
  cs.foldl (fun acc c => acc ++ c.content) ""

/-- The streaming fallback loop: chunks already delivered by a failed
attempt stay visible to `onChunk` (no retraction), its accumulated buffer is
discarded, and the next fallback restarts from scratch. -/
def walkStreamFallbacks (store : Store) (conversationId : String)
    (useMemory : Bool) (t : Nat) :
    List StreamBehavior → Option (String × Store) × List (String × Bool)
  | [] => (none, [])
  | b :: rest =>
    if b.fails then
      let w := walkStreamFallbacks store conversationId useMemory t rest
      (w.1, chunkCalls b.chunks ++ w.2)
    else
      (some (accumulateChunks b.chunks,
          if useMemory then
            (MemoryManager.addMessage store conversationId
              { role := Role.assistant, content := accumulateChunks b.chunks } t).2
          else store),
        chunkCalls b.chunks)

/-- Model of `LLMClient.generateStreamingResponse`: consume the primary stream,
invoking `onChunk` per element and accumulating the full response; on a
stream failure walk the fallbacks; if all fail, the outer catch invokes
`onChunk(errorMessage, true)` and returns the streaming apology. -/
def LLMClient.generateStreamingResponse (store : Store) (conversationId : String)
    (useMemory : Bool) (prompt : String) (t : Nat)
    (primary : StreamBehavior) (fallbacks : List StreamBehavior) : StreamOutcome :=
  let store1 :=
    if useMemory then
      (MemoryManager.addMessage store conversationId
        { role := Role.user, content := prompt } t).2
    else store
  if primary.fails then
    match walkStreamFallbacks store1 conversationId useMemory t fallbacks with
    | (some (r, store2), calls) =>
      { response := r, calls := chunkCalls primary.chunks ++ calls, store := store2 }
    | (none, calls) =>
      { response := streamingApology,
        calls := chunkCalls primary.chunks ++ calls ++ [(streamingApology, true)],
        store := store1 }
  else
    { response := accumulateChunks primary.chunks,
      calls := chunkCalls primary.chunks,
      store :=
        if useMemory then
          (MemoryManager.addMessage store1 conversationId
            { role := Role.assistant, content := accumulateChunks primary.chunks } t).2
        else store1 }

/-! ## Providers (`lib/llm/providers/cohere.ts`, `openrouter.ts`, `glhf.ts`)

The HTTP request of one attempt is modelled by its outcome; the response
body by the shape the source inspects. -/

/-- Model of `response.data` of a Cohere chat call as the source checks it. -/
structure CohereData where
  text : String

/-- A resolved Cohere response; `data` may be absent. -/
structure CohereResponse where
  data : Option CohereData

/-- Model of `CohereProvider.generateResponse`: retry the request (default policy);
a missing `data` or falsy `data.text` throws inside the same `try`, and the
`catch` recovers every failure to the apology literal.  The function is
total: no error escapes. -/
def CohereProvider.generateResponse
    (request : Nat → Except String CohereResponse) : String :=
  match (withRetry request 3 1000).result with
  | Except.error _ => generateApology
  | Except.ok r =>
    match r.data with
    | none => generateApology
    | some d => if d.text.isEmpty then generateApology else d.text

/-- Model of `message` of one OpenAI-style choice. -/
structure ORMessage where
  content : String

/-- One entry of `response.data.choices`. -/
structure ORChoice where
  message : ORMessage

/-- Model of `response.data` of an OpenAI-style call; `choices` may be absent. -/
structure ORData where
  choices : Option (List ORChoice)

/-- A resolved OpenAI-style response; `data` may be absent. -/
structure ORResponse where
  data : Option ORData

/-- Model of `OpenRouterProvider.generateResponse`: retry, validate
`data`/`choices`/non-emptiness (failures throw into the same `try`), return
`choices[0].message.content`; the `catch` recovers to the apology literal. -/
def OpenRouterProvider.generateResponse
    (request : Nat → Except String ORResponse) : String :=
  match (withRetry request 3 1000).result with
  | Except.error _ => generateApology
  | Except.ok r =>
    match r.data with
    | none => generateApology
    | some d =>
      match d.choices with
      | none => generateApology
      | some [] => generateApology
      | some (c :: _) => c.message.content

/-- Model of `GLHFProvider.generateResponse` — the GLHF endpoint shares the
OpenAI-style response shape and the identical recovery structure. -/
def GLHFProvider.generateResponse
    (request : Nat → Except String ORResponse) : String :=
  match (withRetry request 3 1000).result with
  | Except.error _ => generateApology
  | Except.ok r =>
    match r.data with
    | none => generateApology
    | some d =>
      match d.choices with
      | none => generateApology
      | some [] => generateApology
      | some (c :: _) => c.message.content

/-- Classification of one decoded Cohere stream frame under the source's
parse rules: blank text (skipped), a JSON event of type `text-generation`
(yield `json.text || ''`), a JSON `stream-end` event (yield the final marker
and return), any other JSON event (ignored), non-JSON text whose
`"text": "..."` regex rescue matched (yield), or unusable garbage
(logged and skipped). -/
inductive CohereFrame where
  | empty
  | textGen (t : String)
  | streamEnd
  | otherEvent
  | regexText (t : String)
  | garbage

/-- The Cohere frame loop; the `Bool` says whether the connection's
iterator raises after the listed frames (the outer `catch` then yields one
final error chunk). -/
def CohereProvider.streamFrames : List CohereFrame → Bool → List LLMResponseChunk
  | [], midFail =>
    if midFail then [{ content := streamingApology, done := true }]
    else [{ content := "", done := true }]
  | CohereFrame.empty :: rest, midFail => CohereProvider.streamFrames rest midFail
  | CohereFrame.textGen s :: rest, midFail =>
    { content := s, done := false } :: CohereProvider.streamFrames rest midFail
  | CohereFrame.streamEnd :: _, _ => [{ content := "", done := true }]
  | CohereFrame.otherEvent :: rest, midFail => CohereProvider.streamFrames rest midFail
  | CohereFrame.regexText s :: rest, midFail =>
    { content := s, done := false } :: CohereProvider.streamFrames rest midFail
  | CohereFrame.garbage :: rest, midFail => CohereProvider.streamFrames rest midFail

/-- Outcome of opening a Cohere stream: the retried request itself failed,
or a connection delivering the classified frames (possibly failing
mid-stream). -/
inductive CohereConn where
  | connError
  | streamOk (frames : List CohereFrame) (midFail : Bool)

/-- Model of `CohereProvider.generateStreamingResponse` as the chunk sequence it
yields. -/
def CohereProvider.generateStreamingResponse : CohereConn → List LLMResponseChunk
  | CohereConn.connError => [{ content := streamingApology, done := true }]
  | CohereConn.streamOk frames midFail => CohereProvider.streamFrames frames midFail

/-- Classification of one effective `data: ` line of an OpenRouter (or GLHF)
SSE stream: the `[DONE]` sentinel, a delta with truthy content, or a line
that yields nothing (missing/empty delta; a parse failure truncates the
chunk's remaining lines, which this event list therefore omits). -/
inductive ORLine where
  | doneMark
  | delta (c : String)
  | skipLine

/-- The OpenRouter line loop over the effective line events. -/
def OpenRouterProvider.streamEvents : List ORLine → Bool → List LLMResponseChunk
  | [], midFail =>
    if midFail then [{ content := streamingApology, done := true }]
    else [{ content := "", done := true }]
  | ORLine.doneMark :: _, _ => [{ content := "", done := true }]
  | ORLine.delta s :: rest, midFail =>
    { content := s, done := false } :: OpenRouterProvider.streamEvents rest midFail
  | ORLine.skipLine :: rest, midFail => OpenRouterProvider.streamEvents rest midFail

/-- Outcome of opening an OpenRouter stream. -/
inductive ORConn where
  | connError
  | streamOk (events : List ORLine) (midFail : Bool)

/-- Model of `OpenRouterProvider.generateStreamingResponse` as the chunk sequence it
yields. -/
def OpenRouterProvider.generateStreamingResponse : ORConn → List LLMResponseChunk
  | ORConn.connError => [{ content := streamingApology, done := true }]
  | ORConn.streamOk events midFail => OpenRouterProvider.streamEvents events midFail

/-! ## Provider registry (`lib/llm/factory.ts`) -/

/-- The four provider implementations the factory can construct. -/
inductive ProviderKind where
  | groq
  | glhf
  | openrouter
  | cohere
deriving DecidableEq, Repr

/-- A constructed provider instance.  `ctorId` makes construction identity
explicit: two instances built by separate `new` calls carry distinct ids,
while a cache hit returns the instance with its original id. -/
structure ProviderInstance where
  kind : ProviderKind
  model : Option String
  ctorId : Nat
deriving DecidableEq, Repr

/-- The cache key: `` `${provider}${model ? `-${model}` : ''}` `` — the
exact (case-sensitive) name plus the optional model suffix. -/
def providerKey (provider : String) (model : Option String) : String :=
  provider ++ (match model with | some m => "-" ++ m | none => "")

/-- Model of `provider.toLowerCase()`, character by character (the provider names are
ASCII); defined by structural List recursion so that concrete instances
evaluate. -/
def jsToLowerCase (s : String) : String :=
  String.mk (s.data.map Char.toLower)

/-- The `switch (provider.toLowerCase())` dispatch. -/
def parseProviderName (s : String) : Option ProviderKind :=
  if s = "groq" then some ProviderKind.groq
  else if s = "glhf" then some ProviderKind.glhf
  else if s = "openrouter" then some ProviderKind.openrouter
  else if s = "cohere" then some ProviderKind.cohere
  else none

/-- Model of `LLMFactory.providers` plus the construction counter. -/
structure FactoryState where
  cache : List (String × ProviderInstance)
  nextId : Nat
deriving Repr

/-- Model of `Map.get` on the provider cache. -/
def cacheGet : List (String × ProviderInstance) → String → Option ProviderInstance
  | [], _ => none
  | (k, v) :: rest, key => if k = key then some v else cacheGet rest key

/-- Model of `LLMFactory.getProvider`: return the cached instance for the exact key
if present; otherwise dispatch on the lowercased name, constructing and
caching a new instance, or throw `Unknown provider` for an unrecognized
name. -/
def LLMFactory.getProvider (st : FactoryState) (provider : String)
    (model : Option String) : Except String (ProviderInstance × FactoryState) :=
  match cacheGet st.cache (providerKey provider model) with
  | some p => Except.ok (p, st)
  | none =>
    match parseProviderName (jsToLowerCase provider) with
    | some kind =>
      Except.ok ({ kind := kind, model := model, ctorId := st.nextId },
        { cache := (providerKey provider model,
            ({ kind := kind, model := model, ctorId := st.nextId } : ProviderInstance))
            :: st.cache,
          nextId := st.nextId + 1 })
    | none => Except.error ("Unknown provider: " ++ provider)

/-! ## Claim theorems -/

/-- An operation failing on its first two attempts and succeeding on the
third, for exercising the retry policy. -/
def retryWitnessOp : Nat → Except String String :=
  fun i => if i < 2 then Except.error "boom" else Except.ok "recovered"

/-- A request whose every attempt fails at the transport level. -/
def failingCohereRequest : Nat → Except String CohereResponse :=
  fun _ => Except.error "network error"

/-- An OpenAI-style request whose every attempt fails. -/
def failingORRequest : Nat → Except String ORResponse :=
  fun _ => Except.error "network error"

/-- A plain user turn used by the concrete memory runs. -/
def witnessUserTurn : LLMMessage := { role := Role.user, content := "hi" }

/-- Another plain user turn used by the concrete memory runs. -/
def witnessUserGreeting : LLMMessage := { role := Role.user, content := "hello world" }

/-! ## Theorems -/

theorem roleOfString_toJsonString (r : Role) : roleOfString r.toJsonString = some r := by
  cases r <;> rfl

theorem decodeMessage_encodeMessage (m : LLMMessage) :
    decodeMessage (encodeMessage m) = some m := by
  obtain ⟨r, c, n⟩ := m
  cases r <;> cases n <;> rfl

theorem decodeMessages_map (ms : List LLMMessage) :
    decodeMessages (ms.map encodeMessage) = some ms := by
  induction ms with
  | nil => rfl
  | cons m rest ih =>
    simp only [List.map_cons, decodeMessages, decodeMessage_encodeMessage, ih]

theorem decodeConv_encodeConv (c : ConversationState) :
    decodeConv (encodeConv c) = some c := by
  obtain ⟨ms, s, ca, ua⟩ := c
  cases s <;>
    simp only [encodeConv, decodeConv, List.cons_append, List.nil_append, jGet,
      decodeMessages_map, String.reduceEq, reduceIte]

theorem storeGet_storeSet_same (s : Store) (key : String) (v : Json) :
    storeGet (storeSet s key v) key = some v := by
  simp [storeGet, storeSet]

theorem storeGet_storeSet_other (s : Store) (k1 k2 : String) (v : Json) (h : k1 ≠ k2) :
    storeGet (storeSet s k1 v) k2 = storeGet s k2 := by
  simp [storeGet, storeSet, h]

theorem addMessageState_updatedAt (conv : Option ConversationState)
    (m : LLMMessage) (t : Nat) :
    (MemoryManager.addMessageState conv m t).updatedAt = t := rfl

/-- Saving then loading restores exactly the saved record. -/
theorem loadConversation_saveConversation (store : Store) (id : String)
    (state : ConversationState) (t : Nat) :
    MemoryManager.loadConversation
      (MemoryManager.saveConversation store id state t).2 id =
      some (MemoryManager.saveConversation store id state t).1 := by
  simp [MemoryManager.loadConversation, MemoryManager.saveConversation,
    storeGet_storeSet_same, decodeConv_encodeConv]

theorem loadConversation_addMessage (store : Store) (id : String)
    (m : LLMMessage) (t : Nat) :
    MemoryManager.loadConversation (MemoryManager.addMessage store id m t).2 id =
      some (MemoryManager.addMessageState
        (MemoryManager.loadConversation store id) m t) := by
  have h := loadConversation_saveConversation store id
    (MemoryManager.addMessageState (MemoryManager.loadConversation store id) m t) t
  have : (MemoryManager.saveConversation store id
      (MemoryManager.addMessageState (MemoryManager.loadConversation store id) m t) t).1 =
      MemoryManager.addMessageState (MemoryManager.loadConversation store id) m t := by
    simp [MemoryManager.saveConversation, MemoryManager.addMessageState]
  rw [MemoryManager.addMessage]
  rw [h, this]

/-- Loading after a run of appends is the state-level fold of the appends. -/
theorem loadConversation_appendAll (id : String) (t : Nat) (ms : List LLMMessage) :
    ∀ store : Store,
      MemoryManager.loadConversation (MemoryManager.appendAll store id t ms) id =
        MemoryManager.foldState (MemoryManager.loadConversation store id) t ms := by
  induction ms with
  | nil => intro store; rfl
  | cons m rest ih =>
    intro store
    rw [MemoryManager.appendAll, MemoryManager.foldState, ih,
      loadConversation_addMessage]

/-! ## Eviction closed form -/

theorem pruneMessages_of_le {msgs : List LLMMessage}
    (h : msgs.length ≤ MemoryManager.MAX_MESSAGES_TO_KEEP) :
    pruneMessages msgs = msgs := by
  simp [pruneMessages, Nat.not_lt.mpr h]

theorem pruneMessages_of_lt {msgs : List LLMMessage}
    (h : MemoryManager.MAX_MESSAGES_TO_KEEP < msgs.length) :
    pruneMessages msgs = evictedForm msgs := by
  simp [pruneMessages, h]

theorem leadingSystem_length_le (msgs : List LLMMessage) :
    (leadingSystem msgs).length ≤ 1 := by
  cases msgs with
  | nil => simp [leadingSystem]
  | cons m rest =>
    by_cases hm : m.role = Role.system <;> simp [leadingSystem, hm]

theorem length_evictedForm {msgs : List LLMMessage}
    (h : MemoryManager.MAX_MESSAGES_TO_KEEP < msgs.length) :
    (evictedForm msgs).length = MemoryManager.MAX_MESSAGES_TO_KEEP := by
  have hl := leadingSystem_length_le msgs
  simp only [evictedForm, List.length_append, List.length_drop]
  simp only [MemoryManager.MAX_MESSAGES_TO_KEEP] at *
  omega

theorem foldState_append_singleton (t : Nat) (m : LLMMessage) :
    ∀ (xs : List LLMMessage) (conv : Option ConversationState),
      MemoryManager.foldState conv t (xs ++ [m]) =
        some (MemoryManager.addMessageState (MemoryManager.foldState conv t xs) m t) := by
  intro xs
  induction xs with
  | nil => intro conv; rfl
  | cons x rest ih =>
    intro conv
    simp only [List.cons_append, MemoryManager.foldState]
    exact ih _

theorem addMessageState_messages (c : ConversationState) (m : LLMMessage) (t : Nat) :
    (MemoryManager.addMessageState (some c) m t).messages =
      pruneMessages (c.messages ++ [m]) := rfl

/-- Pruning a 51-message list whose head is a system message keeps the head
and evicts the message right after it (the oldest unprotected one). -/
theorem pruneMessages_cons_system (x0 : LLMMessage) (rest : List LLMMessage)
    (h0 : x0.role = Role.system) (h : (x0 :: rest).length = 51) :
    pruneMessages (x0 :: rest) = x0 :: rest.drop 1 := by
  have hlt : MemoryManager.MAX_MESSAGES_TO_KEEP < (x0 :: rest).length := by
    simp only [MemoryManager.MAX_MESSAGES_TO_KEEP]; omega
  rw [pruneMessages_of_lt hlt]
  simp only [evictedForm, leadingSystem, if_pos h0, List.length_singleton,
    MemoryManager.MAX_MESSAGES_TO_KEEP, h]
  norm_num [List.drop_succ_cons]

/-- Pruning a 51-message list whose head is not a system message evicts
exactly that oldest message. -/
theorem pruneMessages_cons_nonsystem (x0 : LLMMessage) (rest : List LLMMessage)
    (h0 : ¬ x0.role = Role.system) (h : (x0 :: rest).length = 51) :
    pruneMessages (x0 :: rest) = rest := by
  have hlt : MemoryManager.MAX_MESSAGES_TO_KEEP < (x0 :: rest).length := by
    simp only [MemoryManager.MAX_MESSAGES_TO_KEEP]; omega
  rw [pruneMessages_of_lt hlt]
  simp only [evictedForm, leadingSystem, if_neg h0, List.length_nil,
    MemoryManager.MAX_MESSAGES_TO_KEEP, h]
  norm_num [List.drop_succ_cons]

/-- One saturated append step: pushing onto an already-pruned over-full
history and pruning again gives the closed eviction form of the longer
history, provided only the head of the original history can be a system
message. -/
theorem pruneMessages_evictedForm_append (xs : List LLMMessage) (m : LLMMessage)
    (hx : MemoryManager.MAX_MESSAGES_TO_KEEP < xs.length)
    (htail : ∀ x ∈ xs.tail, x.role ≠ Role.system) :
    pruneMessages (evictedForm xs ++ [m]) = evictedForm (xs ++ [m]) := by
  obtain ⟨x0, xs', rfl⟩ : ∃ y ys, xs = y :: ys := by
    cases xs with
    | nil => simp [MemoryManager.MAX_MESSAGES_TO_KEEP] at hx
    | cons a l => exact ⟨a, l, rfl⟩
  have hlen : 50 ≤ xs'.length := by
    simp only [MemoryManager.MAX_MESSAGES_TO_KEEP, List.length_cons] at hx
    omega
  by_cases h0 : x0.role = Role.system
  · -- the leading system message is retained at every step
    have hidx1 : (x0 :: xs').length -
        (MemoryManager.MAX_MESSAGES_TO_KEEP - (leadingSystem (x0 :: xs')).length) =
        (xs'.length - 49) + 1 := by
      simp only [leadingSystem, if_pos h0, List.length_singleton, List.length_nil, List.length_cons,
        MemoryManager.MAX_MESSAGES_TO_KEEP]
      omega
    have hef : evictedForm (x0 :: xs') = x0 :: xs'.drop (xs'.length - 49) := by
      simp only [evictedForm]
      rw [hidx1]
      simp only [List.drop_succ_cons, leadingSystem, if_pos h0, List.singleton_append]
    have hlen49 : (xs'.drop (xs'.length - 49)).length = 49 := by
      simp only [List.length_drop]; omega
    rw [hef,
      show (x0 :: xs'.drop (xs'.length - 49)) ++ [m] =
        x0 :: (xs'.drop (xs'.length - 49) ++ [m]) from rfl,
      pruneMessages_cons_system x0 _ h0
        (by simp only [List.length_cons, List.length_append, List.length_singleton,
              List.length_nil, hlen49])]
    have hstep : (xs'.drop (xs'.length - 49) ++ [m]).drop 1 =
        xs'.drop (xs'.length - 48) ++ [m] := by
      rw [List.drop_append_of_le_length (by rw [hlen49]; omega), List.drop_drop,
        show (xs'.length - 49) + 1 = xs'.length - 48 from by omega]
    rw [hstep]
    have hidx2 : (x0 :: (xs' ++ [m])).length -
        (MemoryManager.MAX_MESSAGES_TO_KEEP - (leadingSystem (x0 :: (xs' ++ [m]))).length) =
        (xs'.length - 48) + 1 := by
      simp only [leadingSystem, if_pos h0, List.length_singleton, List.length_nil, List.length_cons,
        List.length_append, MemoryManager.MAX_MESSAGES_TO_KEEP]
      omega
    have hR : evictedForm (x0 :: (xs' ++ [m])) =
        x0 :: (xs'.drop (xs'.length - 48) ++ [m]) := by
      simp only [evictedForm]
      rw [hidx2]
      simp only [List.drop_succ_cons, leadingSystem, if_pos h0, List.singleton_append]
      rw [List.drop_append_of_le_length (show xs'.length - 48 ≤ xs'.length from by omega)]
    rw [show (x0 :: xs') ++ [m] = x0 :: (xs' ++ [m]) from rfl, hR]
  · -- no protected head: the plain oldest message is evicted each step
    have hidx1 : (x0 :: xs').length -
        (MemoryManager.MAX_MESSAGES_TO_KEEP - (leadingSystem (x0 :: xs')).length) =
        (xs'.length - 50) + 1 := by
      simp only [leadingSystem, if_neg h0, List.length_nil, List.length_cons,
        MemoryManager.MAX_MESSAGES_TO_KEEP]
      omega
    have hef : evictedForm (x0 :: xs') = xs'.drop (xs'.length - 50) := by
      simp only [evictedForm]
      rw [hidx1]
      simp only [List.drop_succ_cons, leadingSystem, if_neg h0, List.nil_append]
    have hdlen : (xs'.drop (xs'.length - 50)).length = 50 := by
      simp only [List.length_drop]
      omega
    obtain ⟨h1, rest1, hsplit⟩ : ∃ h1 rest1, xs'.drop (xs'.length - 50) = h1 :: rest1 := by
      refine List.exists_cons_of_ne_nil ?_
      intro hnil
      rw [hnil] at hdlen
      simp at hdlen
    have hmem : h1 ∈ xs' := by
      have : h1 ∈ xs'.drop (xs'.length - 50) := by rw [hsplit]; exact List.mem_cons_self _ _
      exact List.drop_subset _ _ this
    have h1non : ¬ h1.role = Role.system := htail h1 hmem
    have hrest1 : rest1 = xs'.drop (xs'.length - 49) := by
      have h2 : (xs'.drop (xs'.length - 50)).drop 1 = rest1 := by
        rw [hsplit, List.drop_succ_cons, List.drop_zero]
      rw [← h2, List.drop_drop, show (xs'.length - 50) + 1 = xs'.length - 49 from by omega]
    have hlen51 : (h1 :: (rest1 ++ [m])).length = 51 := by
      have hr : rest1.length = 49 := by
        rw [hrest1]
        simp only [List.length_drop]
        omega
      simp only [List.length_cons, List.length_append, List.length_singleton,
        List.length_nil, hr]
    rw [hef, hsplit, show (h1 :: rest1) ++ [m] = h1 :: (rest1 ++ [m]) from rfl,
      pruneMessages_cons_nonsystem h1 _ h1non hlen51]
    have hidx2 : (x0 :: (xs' ++ [m])).length -
        (MemoryManager.MAX_MESSAGES_TO_KEEP - (leadingSystem (x0 :: (xs' ++ [m]))).length) =
        (xs'.length - 49) + 1 := by
      simp only [leadingSystem, if_neg h0, List.length_nil, List.length_cons,
        List.length_append, List.length_singleton, MemoryManager.MAX_MESSAGES_TO_KEEP]
      omega
    have hR : evictedForm (x0 :: (xs' ++ [m])) = xs'.drop (xs'.length - 49) ++ [m] := by
      simp only [evictedForm]
      rw [hidx2]
      simp only [List.drop_succ_cons, leadingSystem, if_neg h0, List.nil_append]
      rw [List.drop_append_of_le_length (show xs'.length - 49 ≤ xs'.length from by omega)]
    rw [show (x0 :: xs') ++ [m] = x0 :: (xs' ++ [m]) from rfl, hR, hrest1]

/-- Closed form for the message list after a run of appends on a fresh
conversation: no change while within the budget, then the eviction form. -/
theorem foldState_messages (t : Nat) (ms : List LLMMessage) :
    ms ≠ [] →
    (∀ x ∈ ms.tail, x.role ≠ Role.system) →
    ∃ c, MemoryManager.foldState none t ms = some c ∧
      c.messages = if ms.length ≤ MemoryManager.MAX_MESSAGES_TO_KEEP then ms
                   else evictedForm ms := by
  induction ms using List.reverseRecOn with
  | nil => intro h; exact absurd rfl h
  | append_singleton xs m ih =>
    intro _ htail
    rcases eq_or_ne xs [] with rfl | hxs
    · refine ⟨MemoryManager.addMessageState none m t, rfl, ?_⟩
      simp only [List.nil_append, List.length_singleton]
      rw [if_pos (by simp only [MemoryManager.MAX_MESSAGES_TO_KEEP]; omega)]
      show pruneMessages ([] ++ [m]) = [m]
      rw [List.nil_append]
      exact pruneMessages_of_le (by simp [MemoryManager.MAX_MESSAGES_TO_KEEP])
    · have htail' : ∀ x ∈ xs.tail, x.role ≠ Role.system := by
        intro x hx
        exact htail x (by rw [List.tail_append_of_ne_nil hxs]; exact List.mem_append_left _ hx)
      obtain ⟨c, hc, hmsg⟩ := ih hxs htail'
      refine ⟨MemoryManager.addMessageState (some c) m t, ?_, ?_⟩
      · rw [foldState_append_singleton, hc]
      · rw [addMessageState_messages, hmsg]
        rcases lt_trichotomy xs.length MemoryManager.MAX_MESSAGES_TO_KEEP with hlt | heq | hgt
        · rw [if_pos (Nat.le_of_lt hlt), if_pos (by simp; omega),
            pruneMessages_of_le (by simp; omega)]
        · rw [if_pos (Nat.le_of_eq heq), if_neg (by simp; omega),
            pruneMessages_of_lt (by simp; omega)]
        · rw [if_neg (by omega), if_neg (by simp; omega)]
          exact pruneMessages_evictedForm_append xs m hgt htail'

/-- Claim C3: for every conversation key, after N appends with N exceeding
`MAX_MESSAGES_TO_KEEP` (default 50) on a fresh key, `load` returns exactly
`MAX_MESSAGES_TO_KEEP` messages; the oldest non-system messages are evicted
first (the retained list is the leading system message, if any, followed by
the most recent messages), and a leading system message is always retained
as the first message.  The eviction-order clause is stated for histories in
which only the leading message can be a system message — the data-model
shape the specification describes (the pruning code protects position 0
only). -/
theorem memory_eviction_closed_form (store : Store) (id : String) (t : Nat)
    (ms : List LLMMessage)
    (hfresh : MemoryManager.loadConversation store id = none)
    (hN : MemoryManager.MAX_MESSAGES_TO_KEEP < ms.length)
    (htail : ∀ x ∈ ms.tail, x.role ≠ Role.system) :
    ∃ c, MemoryManager.loadConversation
        (MemoryManager.appendAll store id t ms) id = some c ∧
      c.messages.length = MemoryManager.MAX_MESSAGES_TO_KEEP ∧
      c.messages = leadingSystem ms ++
        ms.drop (ms.length -
          (MemoryManager.MAX_MESSAGES_TO_KEEP - (leadingSystem ms).length)) ∧
      (∀ m0, ms.head? = some m0 → m0.role = Role.system →
        c.messages.head? = some m0) := by
  have hne : ms ≠ [] := by
    intro h
    rw [h] at hN
    simp [MemoryManager.MAX_MESSAGES_TO_KEEP] at hN
  obtain ⟨c, hc, hmsg⟩ := foldState_messages t ms hne htail
  rw [if_neg (by omega)] at hmsg
  refine ⟨c, ?_, ?_, ?_, ?_⟩
  · rw [loadConversation_appendAll, hfresh, hc]
  · rw [hmsg]; exact length_evictedForm hN
  · rw [hmsg]; rfl
  · intro m0 hm0 hsys
    obtain ⟨rest, rfl⟩ : ∃ rest, ms = m0 :: rest := by
      cases ms with
      | nil => simp at hm0
      | cons a l =>
        simp only [List.head?_cons, Option.some_inj] at hm0
        exact ⟨l, by rw [hm0]⟩
    rw [hmsg]
    simp [evictedForm, leadingSystem, if_pos hsys]

/-- Both branches of `generateConversationSummary` return a non-empty string,
so a generated summary is never falsy again. -/
theorem generateConversationSummary_ne_empty (messages : List LLMMessage) :
    MemoryManager.generateConversationSummary messages ≠ "" := by
  unfold MemoryManager.generateConversationSummary
  by_cases h : ((messages.filter (fun m => m.role = Role.user)).map LLMMessage.content).isEmpty
  · rw [if_pos h]
    decide
  · rw [if_neg h]
    intro hcontra
    have hlen := congrArg String.length hcontra
    rw [String.length_append] at hlen
    have h38 : String.length "The conversation covers these topics: " = 38 := by decide
    rw [h38] at hlen
    simp at hlen

theorem summaryFalsy_some_generated (messages : List LLMMessage) :
    summaryFalsy (some (MemoryManager.generateConversationSummary messages)) = false := by
  simp only [summaryFalsy, decide_eq_false_iff_not]
  exact generateConversationSummary_ne_empty messages

theorem addMessageState_summary (c : ConversationState) (m : LLMMessage) (t : Nat) :
    (MemoryManager.addMessageState (some c) m t).summary =
      if MemoryManager.SUMMARY_MESSAGE_THRESHOLD ≤ (pruneMessages (c.messages ++ [m])).length
          ∧ summaryFalsy c.summary = true then
        some (MemoryManager.generateConversationSummary (pruneMessages (c.messages ++ [m])))
      else c.summary := rfl

/-- Closed form for the summary after a run of appends on a fresh
conversation: it is absent below the threshold and from the threshold on it
is the summary generated from the first `SUMMARY_MESSAGE_THRESHOLD` appended
messages — the point where the count first reached the threshold — no matter
how many further messages are appended. -/
theorem foldState_summary (t : Nat) (ms : List LLMMessage) :
    ms ≠ [] →
    ∃ c, MemoryManager.foldState none t ms = some c ∧
      (ms.length ≤ MemoryManager.MAX_MESSAGES_TO_KEEP → c.messages = ms) ∧
      c.summary = if MemoryManager.SUMMARY_MESSAGE_THRESHOLD ≤ ms.length
                  then some (MemoryManager.generateConversationSummary
                    (ms.take MemoryManager.SUMMARY_MESSAGE_THRESHOLD))
                  else none := by
  induction ms using List.reverseRecOn with
  | nil => intro h; exact absurd rfl h
  | append_singleton xs m ih =>
    intro _
    rcases eq_or_ne xs [] with rfl | hxs
    · refine ⟨MemoryManager.addMessageState none m t, rfl, ?_, ?_⟩
      · intro _
        simp only [List.nil_append]
        show pruneMessages ([] ++ [m]) = [m]
        rw [List.nil_append]
        exact pruneMessages_of_le (by simp [MemoryManager.MAX_MESSAGES_TO_KEEP])
      · have hmsg : pruneMessages ([] ++ [m]) = [m] := by
          rw [List.nil_append]
          exact pruneMessages_of_le (by simp [MemoryManager.MAX_MESSAGES_TO_KEEP])
        show (if MemoryManager.SUMMARY_MESSAGE_THRESHOLD ≤ (pruneMessages ([] ++ [m])).length
              ∧ summaryFalsy none = true then
              some (MemoryManager.generateConversationSummary (pruneMessages ([] ++ [m])))
            else none) = _
        rw [if_neg (by
          rw [hmsg]
          simp only [List.length_singleton, MemoryManager.SUMMARY_MESSAGE_THRESHOLD]
          omega)]
        rw [if_neg (by
          simp only [List.nil_append, List.length_singleton,
            MemoryManager.SUMMARY_MESSAGE_THRESHOLD]
          omega)]
    · obtain ⟨c, hc, hmsgle, hsum⟩ := ih hxs
      refine ⟨MemoryManager.addMessageState (some c) m t, ?_, ?_, ?_⟩
      · rw [foldState_append_singleton, hc]
      · intro hlen
        rw [addMessageState_messages,
          hmsgle (by simp only [List.length_append, List.length_singleton] at hlen; omega)]
        exact pruneMessages_of_le hlen
      · rcases Nat.lt_or_ge xs.length MemoryManager.SUMMARY_MESSAGE_THRESHOLD with hlt | hge
        · -- the summary is still absent before the step
          have hcsum : c.summary = none := by rw [hsum, if_neg (Nat.not_le.mpr hlt)]
          have hxle : xs.length ≤ MemoryManager.MAX_MESSAGES_TO_KEEP := by
            simp only [MemoryManager.SUMMARY_MESSAGE_THRESHOLD] at hlt
            simp only [MemoryManager.MAX_MESSAGES_TO_KEEP]
            omega
          have hmsg : pruneMessages (c.messages ++ [m]) = xs ++ [m] := by
            rw [hmsgle hxle]
            refine pruneMessages_of_le ?_
            simp only [List.length_append, List.length_singleton,
              MemoryManager.SUMMARY_MESSAGE_THRESHOLD] at hlt ⊢
            simp only [MemoryManager.MAX_MESSAGES_TO_KEEP]
            omega
          rw [addMessageState_summary, hcsum, hmsg]
          rcases Nat.lt_or_ge (xs.length + 1) MemoryManager.SUMMARY_MESSAGE_THRESHOLD
            with hlt2 | hge2
          · rw [if_neg (by
              simp only [List.length_append, List.length_singleton]
              intro hcon
              exact absurd hcon.1 (Nat.not_le.mpr hlt2))]
            rw [if_neg (by
              simp only [List.length_append, List.length_singleton]
              exact Nat.not_le.mpr hlt2)]
          · -- the count reaches the threshold exactly at this append
            have hexact : (xs ++ [m]).length = MemoryManager.SUMMARY_MESSAGE_THRESHOLD := by
              simp only [List.length_append, List.length_singleton]
              simp only [MemoryManager.SUMMARY_MESSAGE_THRESHOLD] at hlt hge2 ⊢
              omega
            rw [if_pos (by
              constructor
              · rw [hexact]
              · rfl)]
            rw [if_pos (by rw [← hexact])]
            rw [List.take_of_length_le (Nat.le_of_eq hexact)]
        · -- the summary was already generated and is preserved unchanged
          have hcsum : c.summary = some (MemoryManager.generateConversationSummary
              (xs.take MemoryManager.SUMMARY_MESSAGE_THRESHOLD)) := by
            rw [hsum, if_pos hge]
          rw [addMessageState_summary, hcsum,
            if_neg (by
              intro hcon
              rw [summaryFalsy_some_generated] at hcon
              exact Bool.false_ne_true hcon.2),
            if_pos (by
              simp only [List.length_append, List.length_singleton]
              omega),
            List.take_append_of_le_length hge]

/-- Appending in two stages is appending the concatenation. -/
theorem appendAll_append (id : String) (t : Nat) (ms ms2 : List LLMMessage) :
    ∀ store : Store,
      MemoryManager.appendAll store id t (ms ++ ms2) =
        MemoryManager.appendAll (MemoryManager.appendAll store id t ms) id t ms2 := by
  induction ms with
  | nil => intro store; rfl
  | cons m rest ih =>
    intro store
    rw [List.cons_append, MemoryManager.appendAll, MemoryManager.appendAll, ih]

/-- Claim C4: the conversation summary is populated automatically exactly
once — at the append that first brings the message count to
`SUMMARY_MESSAGE_THRESHOLD` (default 10) while no summary exists, so its
value is determined by the first ten appended messages — and once it is
non-absent, no further append ever changes it (any continuation of the run
loads the same summary). -/
theorem summary_closed_form (store : Store) (id : String) (t : Nat)
    (ms : List LLMMessage)
    (hfresh : MemoryManager.loadConversation store id = none)
    (hne : ms ≠ []) :
    ∃ c, MemoryManager.loadConversation
        (MemoryManager.appendAll store id t ms) id = some c ∧
      c.summary = (if MemoryManager.SUMMARY_MESSAGE_THRESHOLD ≤ ms.length
                   then some (MemoryManager.generateConversationSummary
                     (ms.take MemoryManager.SUMMARY_MESSAGE_THRESHOLD))
                   else none) ∧
      (MemoryManager.SUMMARY_MESSAGE_THRESHOLD ≤ ms.length →
        ∀ ms2, ms2 ≠ [] →
          ∃ c2, MemoryManager.loadConversation
              (MemoryManager.appendAll
                (MemoryManager.appendAll store id t ms) id t ms2) id = some c2 ∧
            c2.summary = c.summary) := by
  obtain ⟨c, hc, _, hsum⟩ := foldState_summary t ms hne
  refine ⟨c, ?_, hsum, ?_⟩
  · rw [loadConversation_appendAll, hfresh, hc]
  · intro hge ms2 hne2
    obtain ⟨c2, hc2, _, hsum2⟩ := foldState_summary t (ms ++ ms2)
      (by simp [hne])
    refine ⟨c2, ?_, ?_⟩
    · rw [← appendAll_append, loadConversation_appendAll, hfresh, hc2]
    · rw [hsum2, hsum, if_pos hge,
        if_pos (by simp only [List.length_append]; omega),
        List.take_append_of_le_length hge]

theorem withRetryGo_calls_le (fn : Nat → Except ε α) (baseDelay : Nat) :
    ∀ (fuel attempt : Nat) (le : Option ε),
      (withRetryGo fn baseDelay fuel attempt le).calls ≤ fuel := by
  intro fuel
  induction fuel with
  | zero => intro attempt le; simp [withRetryGo]
  | succ f ih =>
    intro attempt le
    rw [withRetryGo]
    cases hfn : fn attempt with
    | ok v => simp
    | error e =>
      simp only
      exact Nat.succ_le_succ (ih (attempt + 1) (some e))

theorem withRetryGo_success (fn : Nat → Except ε α) (baseDelay : Nat) :
    ∀ (i fuel attempt : Nat) (le : Option ε) (v : α),
      i < fuel →
      (∀ j, j < i → ∃ er, fn (attempt + j) = .error er) →
      fn (attempt + i) = .ok v →
      withRetryGo fn baseDelay fuel attempt le =
        { result := .ok v,
          sleeps := (List.range i).map (fun j => baseDelay * 2 ^ (attempt + j)),
          calls := i + 1 } := by
  intro i
  induction i with
  | zero =>
    intro fuel attempt le v hfuel _ hok
    rw [Nat.add_zero] at hok
    obtain ⟨f, rfl⟩ := Nat.exists_eq_add_of_lt hfuel
    rw [show 0 + f + 1 = f + 1 from by omega, withRetryGo, hok]
    simp [List.range_zero]
  | succ i ih =>
    intro fuel attempt le v hfuel hfail hok
    obtain ⟨er, he⟩ := hfail 0 (Nat.zero_lt_succ i)
    rw [Nat.add_zero] at he
    obtain ⟨f, rfl⟩ := Nat.exists_eq_add_of_lt hfuel
    rw [show i + 1 + f + 1 = (i + f + 1) + 1 from by omega, withRetryGo, he]
    simp only
    rw [ih (i + f + 1) (attempt + 1) (some er) v (by omega)
      (fun j hj => by
        obtain ⟨er2, he2⟩ := hfail (j + 1) (by omega)
        exact ⟨er2, by rw [show attempt + 1 + j = attempt + (j + 1) from by omega]; exact he2⟩)
      (by rw [show attempt + 1 + i = attempt + (i + 1) from by omega]; exact hok)]
    have hmap : (List.range (i + 1)).map (fun j => baseDelay * 2 ^ (attempt + j)) =
        baseDelay * 2 ^ attempt ::
          (List.range i).map (fun j => baseDelay * 2 ^ (attempt + 1 + j)) := by
      rw [List.range_succ_eq_map, List.map_cons, List.map_map]
      refine congrArg₂ _ (by simp) ?_
      refine List.map_congr_left ?_
      intro j _
      show baseDelay * 2 ^ (attempt + (j + 1)) = baseDelay * 2 ^ (attempt + 1 + j)
      rw [show attempt + (j + 1) = attempt + 1 + j from by omega]
    rw [hmap]

theorem withRetryGo_allfail (fn : Nat → Except ε α) (baseDelay : Nat) :
    ∀ (fuel attempt : Nat) (le : Option ε),
      (∀ j, j ≤ fuel → ∃ er, fn (attempt + j) = .error er) →
      (withRetryGo fn baseDelay (fuel + 1) attempt le).calls = fuel + 1 ∧
      (withRetryGo fn baseDelay (fuel + 1) attempt le).sleeps =
        (List.range (fuel + 1)).map (fun j => baseDelay * 2 ^ (attempt + j)) ∧
      ∀ e, fn (attempt + fuel) = .error e →
        (withRetryGo fn baseDelay (fuel + 1) attempt le).result = .error (some e) := by
  intro fuel
  induction fuel with
  | zero =>
    intro attempt le h
    obtain ⟨er, he⟩ := h 0 (Nat.le_refl 0)
    rw [Nat.add_zero] at he
    rw [withRetryGo, he]
    refine ⟨rfl, ?_, ?_⟩
    · simp [withRetryGo, List.range_succ, List.range_zero]
    · intro e he2
      rw [Nat.add_zero] at he2
      rw [he] at he2
      cases he2
      rfl
  | succ f ih =>
    intro attempt le h
    obtain ⟨er, he⟩ := h 0 (Nat.zero_le _)
    rw [Nat.add_zero] at he
    have hrec := ih (attempt + 1) (some er)
      (fun j hj => by
        obtain ⟨er2, he2⟩ := h (j + 1) (by omega)
        exact ⟨er2, by rw [show attempt + 1 + j = attempt + (j + 1) from by omega]; exact he2⟩)
    rw [withRetryGo, he]
    refine ⟨?_, ?_, ?_⟩
    · simp only
      rw [hrec.1]
    · simp only
      rw [hrec.2.1]
      have hmap : (List.range (f + 1 + 1)).map (fun j => baseDelay * 2 ^ (attempt + j)) =
          baseDelay * 2 ^ attempt ::
            (List.range (f + 1)).map (fun j => baseDelay * 2 ^ (attempt + 1 + j)) := by
        rw [List.range_succ_eq_map, List.map_cons, List.map_map]
        refine congrArg₂ _ (by simp) ?_
        refine List.map_congr_left ?_
        intro j _
        show baseDelay * 2 ^ (attempt + (j + 1)) = baseDelay * 2 ^ (attempt + 1 + j)
        rw [show attempt + (j + 1) = attempt + 1 + j from by omega]
      rw [hmap]
    · intro e he2
      simp only
      exact hrec.2.2 e (by rw [show attempt + 1 + f = attempt + (f + 1) from by omega]; exact he2)

/-- When every attempt fails, `withRetry` settles in an error (used by the
provider-level recovery proofs). -/
theorem withRetry_allfail_isError (fn : Nat → Except ε α) (m base : Nat)
    (hm : 0 < m) (h : ∀ j, j < m → ∃ er, fn j = .error er) :
    ∃ e, (withRetry fn m base).result = .error e := by
  obtain ⟨f, rfl⟩ := Nat.exists_eq_add_of_lt hm
  rw [Nat.zero_add]
  obtain ⟨er, he⟩ := h f (by omega)
  have hall := withRetryGo_allfail fn base f 0 none
    (fun j hj => by
      obtain ⟨er2, he2⟩ := h j (by omega)
      exact ⟨er2, by rw [Nat.zero_add]; exact he2⟩)
  exact ⟨some er, hall.2.2 er (by rw [Nat.zero_add]; exact he)⟩

theorem walkFallbacks_allfail (conversationId : String) (useMemory : Bool) (t : Nat) :
    ∀ (fallbacks : List (Except String String)) (store : Store),
      (∀ f ∈ fallbacks, ∃ e, f = Except.error e) →
      (walkFallbacks store conversationId useMemory t fallbacks).1 = none := by
  intro fallbacks
  induction fallbacks with
  | nil => intro store _; rfl
  | cons f rest ih =>
    intro store hall
    obtain ⟨e, rfl⟩ := hall f (List.mem_cons_self _ _)
    rw [walkFallbacks]
    exact ih store (fun g hg => hall g (List.mem_cons_of_mem _ hg))

theorem streamFrames_ends_done (frames : List CohereFrame) :
    ∀ midFail, ∃ pre last,
      CohereProvider.streamFrames frames midFail = pre ++ [last] ∧ last.done = true := by
  induction frames with
  | nil =>
    intro midFail
    cases midFail with
    | false => exact ⟨[], { content := "", done := true }, rfl, rfl⟩
    | true => exact ⟨[], { content := streamingApology, done := true }, rfl, rfl⟩
  | cons f rest ih =>
    intro midFail
    cases f with
    | empty => exact ih midFail
    | textGen s =>
      obtain ⟨pre, last, heq, hdone⟩ := ih midFail
      exact ⟨{ content := s, done := false } :: pre, last,
        by rw [CohereProvider.streamFrames, heq]; rfl, hdone⟩
    | streamEnd => exact ⟨[], { content := "", done := true }, rfl, rfl⟩
    | otherEvent => exact ih midFail
    | regexText s =>
      obtain ⟨pre, last, heq, hdone⟩ := ih midFail
      exact ⟨{ content := s, done := false } :: pre, last,
        by rw [CohereProvider.streamFrames, heq]; rfl, hdone⟩
    | garbage => exact ih midFail

theorem streamFrames_success_last (frames : List CohereFrame) :
    ∃ pre, CohereProvider.streamFrames frames false =
      pre ++ [{ content := "", done := true }] := by
  induction frames with
  | nil => exact ⟨[], rfl⟩
  | cons f rest ih =>
    cases f with
    | empty => exact ih
    | textGen s =>
      obtain ⟨pre, heq⟩ := ih
      exact ⟨{ content := s, done := false } :: pre,
        by rw [CohereProvider.streamFrames, heq]; rfl⟩
    | streamEnd => exact ⟨[], rfl⟩
    | otherEvent => exact ih
    | regexText s =>
      obtain ⟨pre, heq⟩ := ih
      exact ⟨{ content := s, done := false } :: pre,
        by rw [CohereProvider.streamFrames, heq]; rfl⟩
    | garbage => exact ih

theorem streamEvents_ends_done (events : List ORLine) :
    ∀ midFail, ∃ pre last,
      OpenRouterProvider.streamEvents events midFail = pre ++ [last] ∧ last.done = true := by
  induction events with
  | nil =>
    intro midFail
    cases midFail with
    | false => exact ⟨[], { content := "", done := true }, rfl, rfl⟩
    | true => exact ⟨[], { content := streamingApology, done := true }, rfl, rfl⟩
  | cons f rest ih =>
    intro midFail
    cases f with
    | doneMark => exact ⟨[], { content := "", done := true }, rfl, rfl⟩
    | delta s =>
      obtain ⟨pre, last, heq, hdone⟩ := ih midFail
      exact ⟨{ content := s, done := false } :: pre, last,
        by rw [OpenRouterProvider.streamEvents, heq]; rfl, hdone⟩
    | skipLine => exact ih midFail

theorem streamEvents_success_last (events : List ORLine) :
    ∃ pre, OpenRouterProvider.streamEvents events false =
      pre ++ [{ content := "", done := true }] := by
  induction events with
  | nil => exact ⟨[], rfl⟩
  | cons f rest ih =>
    cases f with
    | doneMark => exact ⟨[], rfl⟩
    | delta s =>
      obtain ⟨pre, heq⟩ := ih
      exact ⟨{ content := s, done := false } :: pre,
        by rw [OpenRouterProvider.streamEvents, heq]; rfl⟩
    | skipLine => exact ih

theorem providerKey_inj_left {n1 n2 : String} (model : Option String)
    (h : providerKey n1 model = providerKey n2 model) : n1 = n2 := by
  unfold providerKey at h
  have hd := congrArg String.data h
  rw [String.data_append, String.data_append] at hd
  exact String.ext (List.append_cancel_right hd)

/-- Claim C1: for every chain of providers whose generate operations all
fail, `LLMClient.generateResponse` returns the single literal apology string
to the caller; the embedding is a total function, mirroring that the outer
catch lets no exception escape `generateResponse`. -/
theorem client_generate_all_providers_fail (store : Store) (id : String)
    (useMemory : Bool) (prompt : String) (t : Nat) (e : String)
    (fallbacks : List (Except String String))
    (hall : ∀ f ∈ fallbacks, ∃ e2, f = Except.error e2) :
    (LLMClient.generateResponse store id useMemory prompt t
        (Except.error e) fallbacks).response = generateApology := by
  rcases hwk : walkFallbacks
      (if useMemory then
        (MemoryManager.addMessage store id
          { role := Role.user, content := prompt } t).2
      else store) id useMemory t fallbacks with ⟨res, counts⟩
  have hw := walkFallbacks_allfail id useMemory t fallbacks
    (if useMemory then
        (MemoryManager.addMessage store id
          { role := Role.user, content := prompt } t).2
      else store) hall
  rw [hwk] at hw
  simp only at hw
  subst hw
  simp only [LLMClient.generateResponse]
  rw [hwk]

theorem client_generate_all_providers_fail_witness :
    (LLMClient.generateResponse [] "w1" true "hello" 0 (Except.error "primary down")
        [Except.error "f1 down", Except.error "f2 down"]).response = generateApology :=
  client_generate_all_providers_fail [] "w1" true "hello" 0 "primary down" _
    (by
      intro f hf
      simp only [List.mem_cons, List.not_mem_nil, or_false] at hf
      rcases hf with rfl | rfl
      · exact ⟨"f1 down", rfl⟩
      · exact ⟨"f2 down", rfl⟩)

/-- Claim C2: with a primary whose generate always fails and a single
fallback that succeeds with `"Fallback response"`, the client returns
`"Fallback response"`, and the primary and the fallback are each invoked
exactly once during the call. -/
theorem client_generate_fallback_spec (store : Store) (id : String)
    (useMemory : Bool) (prompt : String) (t : Nat) (e : String) :
    (LLMClient.generateResponse store id useMemory prompt t (Except.error e)
        [Except.ok "Fallback response"]).response = "Fallback response" ∧
    (LLMClient.generateResponse store id useMemory prompt t (Except.error e)
        [Except.ok "Fallback response"]).primaryCalls = 1 ∧
    (LLMClient.generateResponse store id useMemory prompt t (Except.error e)
        [Except.ok "Fallback response"]).fallbackCalls = [1] :=
  ⟨rfl, rfl, rfl⟩

/-- Claim C6: a provider streaming `"Stream "`, `"chunk "`, `"test"` (the
last flagged done) makes the client invoke `onChunk` exactly three times
with those fragments in order (with their done flags), and the returned
full response is the concatenation `"Stream chunk test"`. -/
theorem client_streaming_aggregation (store : Store) (id : String)
    (useMemory : Bool) (prompt : String) (t : Nat) (fallbacks : List StreamBehavior) :
    (LLMClient.generateStreamingResponse store id useMemory prompt t
        { chunks := [{ content := "Stream ", done := false },
                     { content := "chunk ", done := false },
                     { content := "test", done := true }],
          fails := false } fallbacks).response = "Stream chunk test" ∧
    (LLMClient.generateStreamingResponse store id useMemory prompt t
        { chunks := [{ content := "Stream ", done := false },
                     { content := "chunk ", done := false },
                     { content := "test", done := true }],
          fails := false } fallbacks).calls =
      [("Stream ", false), ("chunk ", false), ("test", true)] :=
  ⟨rfl, rfl⟩

/-- Claim C5: `withRetry` invokes the operation and returns its first
successful result with at most `maxRetries` invocations; each failed
attempt `i` (zero-indexed) is followed by a sleep of `baseDelay * 2 ^ i`
before the next attempt; after `maxRetries` failed attempts the last error
is propagated to the caller. -/
theorem withRetry_policy_spec {ε α : Type} (fn : Nat → Except ε α) (m base : Nat) :
    (withRetry fn m base).calls ≤ m ∧
    (∀ i v, i < m → (∀ j, j < i → ∃ er, fn j = Except.error er) →
      fn i = Except.ok v →
      withRetry fn m base =
        { result := Except.ok v,
          sleeps := (List.range i).map (fun j => base * 2 ^ j),
          calls := i + 1 }) ∧
    (∀ e, 0 < m → (∀ j, j < m → ∃ er, fn j = Except.error er) →
      fn (m - 1) = Except.error e →
      (withRetry fn m base).result = Except.error (some e) ∧
      (withRetry fn m base).calls = m ∧
      (withRetry fn m base).sleeps = (List.range m).map (fun j => base * 2 ^ j)) := by
  have hlam : (fun j => base * 2 ^ (0 + j)) = (fun j : Nat => base * 2 ^ j) := by
    funext j
    rw [Nat.zero_add]
  refine ⟨withRetryGo_calls_le fn base m 0 none, ?_, ?_⟩
  · intro i v him hfail hok
    rw [withRetry, withRetryGo_success fn base i m 0 none v him
      (fun j hj => by rw [Nat.zero_add]; exact hfail j hj)
      (by rw [Nat.zero_add]; exact hok), hlam]
  · intro e hm hfail hlast
    obtain ⟨f, rfl⟩ := Nat.exists_eq_add_of_lt hm
    have hall := withRetryGo_allfail fn base f 0 none
      (fun j hj => by rw [Nat.zero_add]; exact hfail j (by omega))
    rw [show 0 + f + 1 - 1 = f from by omega] at hlast
    refine ⟨?_, ?_, ?_⟩
    · rw [show (0:Nat) + f + 1 = f + 1 from by omega]
      exact hall.2.2 e (by rw [Nat.zero_add]; exact hlast)
    · rw [show (0:Nat) + f + 1 = f + 1 from by omega]
      exact hall.1
    · rw [show (0:Nat) + f + 1 = f + 1 from by omega, withRetry, hall.2.1, hlam]

theorem withRetry_policy_spec_witness :
    withRetry retryWitnessOp 3 1000 =
      { result := Except.ok "recovered", sleeps := [1000, 2000], calls := 3 } := by
  rw [(withRetry_policy_spec retryWitnessOp 3 1000).2.1 2 "recovered"
    (by omega)
    (fun j hj => ⟨"boom", by interval_cases j <;> rfl⟩)
    rfl]
  rfl

/-- Claim C7: for each provider implementation, when the underlying request
fails on all retry attempts, the buffered generate resolves with the
user-facing apology string instead of rejecting — the embedding is a total
function, so no error escapes the provider's `generateResponse`. -/
theorem providers_recover_to_apology
    (reqC : Nat → Except String CohereResponse)
    (reqO reqG : Nat → Except String ORResponse)
    (hC : ∀ j, j < 3 → ∃ e, reqC j = Except.error e)
    (hO : ∀ j, j < 3 → ∃ e, reqO j = Except.error e)
    (hG : ∀ j, j < 3 → ∃ e, reqG j = Except.error e) :
    CohereProvider.generateResponse reqC = generateApology ∧
    OpenRouterProvider.generateResponse reqO = generateApology ∧
    GLHFProvider.generateResponse reqG = generateApology := by
  obtain ⟨e1, he1⟩ := withRetry_allfail_isError reqC 3 1000 (by omega) hC
  obtain ⟨e2, he2⟩ := withRetry_allfail_isError reqO 3 1000 (by omega) hO
  obtain ⟨e3, he3⟩ := withRetry_allfail_isError reqG 3 1000 (by omega) hG
  refine ⟨?_, ?_, ?_⟩
  · unfold CohereProvider.generateResponse
    rw [he1]
  · unfold OpenRouterProvider.generateResponse
    rw [he2]
  · unfold GLHFProvider.generateResponse
    rw [he3]

theorem providers_recover_to_apology_witness :
    CohereProvider.generateResponse failingCohereRequest = generateApology ∧
    OpenRouterProvider.generateResponse failingORRequest = generateApology ∧
    GLHFProvider.generateResponse failingORRequest = generateApology :=
  providers_recover_to_apology failingCohereRequest failingORRequest failingORRequest
    (fun _ _ => ⟨"network error", rfl⟩)
    (fun _ _ => ⟨"network error", rfl⟩)
    (fun _ _ => ⟨"network error", rfl⟩)

/-- Claim C8: every chunk sequence a provider's streaming generate produces
is a finite list whose final element has `done = true`: a successful stream
ends with the empty done marker, and both a connection-level failure and a
mid-stream failure still terminate the sequence with a done error chunk. -/
theorem provider_streams_end_with_done (cc : CohereConn) (oc : ORConn) :
    ((CohereProvider.generateStreamingResponse cc).getLast?.map LLMResponseChunk.done
      = some true) ∧
    ((OpenRouterProvider.generateStreamingResponse oc).getLast?.map LLMResponseChunk.done
      = some true) ∧
    (∀ frames, (CohereProvider.generateStreamingResponse
        (CohereConn.streamOk frames false)).getLast? =
      some { content := "", done := true }) ∧
    (∀ events, (OpenRouterProvider.generateStreamingResponse
        (ORConn.streamOk events false)).getLast? =
      some { content := "", done := true }) ∧
    CohereProvider.generateStreamingResponse CohereConn.connError =
      [{ content := streamingApology, done := true }] ∧
    OpenRouterProvider.generateStreamingResponse ORConn.connError =
      [{ content := streamingApology, done := true }] := by
  refine ⟨?_, ?_, ?_, ?_, rfl, rfl⟩
  · cases cc with
    | connError => rfl
    | streamOk frames midFail =>
      obtain ⟨pre, last, heq, hdone⟩ := streamFrames_ends_done frames midFail
      show (CohereProvider.streamFrames frames midFail).getLast?.map _ = _
      rw [heq, List.getLast?_concat]
      simp only [Option.map_some', hdone]
  · cases oc with
    | connError => rfl
    | streamOk events midFail =>
      obtain ⟨pre, last, heq, hdone⟩ := streamEvents_ends_done events midFail
      show (OpenRouterProvider.streamEvents events midFail).getLast?.map _ = _
      rw [heq, List.getLast?_concat]
      simp only [Option.map_some', hdone]
  · intro frames
    obtain ⟨pre, heq⟩ := streamFrames_success_last frames
    show (CohereProvider.streamFrames frames false).getLast? = _
    rw [heq, List.getLast?_concat]
  · intro events
    obtain ⟨pre, heq⟩ := streamEvents_success_last events
    show (OpenRouterProvider.streamEvents events false).getLast? = _
    rw [heq, List.getLast?_concat]

/-- Claim C9: saving a Conversation record into the keyed store and loading
it back under the same key restores the persisted record field-for-field,
with message order and content preserved exactly.  `saveConversation` first
stamps `updatedAt = Date.now()` on the caller's record (the source mutates
it in place; the first component of the embedding is that record), and the
loaded record equals it in every field. -/
theorem conversation_save_load_roundtrip (store : Store) (id : String)
    (c : ConversationState) (t : Nat) :
    MemoryManager.loadConversation
        (MemoryManager.saveConversation store id c t).2 id =
      some (MemoryManager.saveConversation store id c t).1 ∧
    (MemoryManager.saveConversation store id c t).1.messages = c.messages ∧
    (MemoryManager.saveConversation store id c t).1.summary = c.summary ∧
    (MemoryManager.saveConversation store id c t).1.createdAt = c.createdAt ∧
    (MemoryManager.saveConversation store id c t).1.updatedAt = t :=
  ⟨loadConversation_saveConversation store id c t, rfl, rfl, rfl, rfl⟩

/-- Claim C10: the registry dispatches on the lowercased provider name but
caches under the exact name string: a second resolve call with the identical
name and model returns the very instance cached by the first call (and
leaves the registry unchanged), while two calls whose names differ only in
letter case both succeed yet construct two distinct instances. -/
theorem factory_cache_spec (st : FactoryState) (n1 n2 : String) (model : Option String) :
    (∀ p1 st1, LLMFactory.getProvider st n1 model = Except.ok (p1, st1) →
      LLMFactory.getProvider st1 n1 model = Except.ok (p1, st1)) ∧
    (n1 ≠ n2 → jsToLowerCase n1 = jsToLowerCase n2 →
      (∃ k, parseProviderName (jsToLowerCase n1) = some k) →
      cacheGet st.cache (providerKey n1 model) = none →
      cacheGet st.cache (providerKey n2 model) = none →
      ∃ p1 st1 p2 st2,
        LLMFactory.getProvider st n1 model = Except.ok (p1, st1) ∧
        LLMFactory.getProvider st1 n2 model = Except.ok (p2, st2) ∧
        p1 ≠ p2) := by
  constructor
  · intro p1 st1 h
    unfold LLMFactory.getProvider at h ⊢
    cases hcg : cacheGet st.cache (providerKey n1 model) with
    | some p =>
      rw [hcg] at h
      cases h
      rw [hcg]
    | none =>
      rw [hcg] at h
      cases hp : parseProviderName (jsToLowerCase n1) with
      | none => rw [hp] at h; cases h
      | some kind =>
        rw [hp] at h
        cases h
        simp [cacheGet]
  · intro hne hcase hk hfresh1 hfresh2
    obtain ⟨k, hk⟩ := hk
    have hkey : providerKey n1 model ≠ providerKey n2 model :=
      fun h => hne (providerKey_inj_left model h)
    refine ⟨{ kind := k, model := model, ctorId := st.nextId },
      { cache := (providerKey n1 model,
          ({ kind := k, model := model, ctorId := st.nextId } : ProviderInstance))
          :: st.cache,
        nextId := st.nextId + 1 },
      { kind := k, model := model, ctorId := st.nextId + 1 },
      { cache := (providerKey n2 model,
          ({ kind := k, model := model, ctorId := st.nextId + 1 } : ProviderInstance))
          :: (providerKey n1 model,
            ({ kind := k, model := model, ctorId := st.nextId } : ProviderInstance))
          :: st.cache,
        nextId := st.nextId + 2 },
      ?_, ?_, ?_⟩
    · unfold LLMFactory.getProvider
      rw [hfresh1, hk]
    · unfold LLMFactory.getProvider
      show (match cacheGet _ (providerKey n2 model) with
            | some p => Except.ok (p, _)
            | none => _) = _
      rw [show cacheGet ((providerKey n1 model,
          ({ kind := k, model := model, ctorId := st.nextId } : ProviderInstance))
          :: st.cache) (providerKey n2 model) = none from by
        simp only [cacheGet, if_neg hkey]
        exact hfresh2]
      rw [show parseProviderName (jsToLowerCase n2) = some k from by rw [← hcase]; exact hk]
    · intro h
      have := congrArg ProviderInstance.ctorId h
      simp at this

theorem factory_cache_spec_witness :
    ∃ p1 st1 p2 st2,
      LLMFactory.getProvider { cache := [], nextId := 0 } "cohere" none =
        Except.ok (p1, st1) ∧
      LLMFactory.getProvider st1 "Cohere" none = Except.ok (p2, st2) ∧
      p1 ≠ p2 :=
  (factory_cache_spec { cache := [], nextId := 0 } "cohere" "Cohere" none).2
    (by decide) (by decide) ⟨ProviderKind.cohere, rfl⟩ rfl rfl

/-- Concrete run exercising the eviction closed form: 51 user messages on a
fresh key. -/
theorem memory_eviction_closed_form_witness :
    ∃ c, MemoryManager.loadConversation
        (MemoryManager.appendAll [] "w3" 0
          (List.replicate 51 witnessUserTurn))
        "w3" = some c ∧
      c.messages.length = MemoryManager.MAX_MESSAGES_TO_KEEP ∧
      c.messages =
        leadingSystem
            (List.replicate 51 witnessUserTurn) ++
          (List.replicate 51 witnessUserTurn).drop
            ((List.replicate 51 witnessUserTurn).length -
              (MemoryManager.MAX_MESSAGES_TO_KEEP -
                (leadingSystem (List.replicate 51 witnessUserTurn)).length)) ∧
      (∀ m0, (List.replicate 51 witnessUserTurn).head? = some m0 →
        m0.role = Role.system → c.messages.head? = some m0) :=
  memory_eviction_closed_form [] "w3" 0 _ rfl (by decide) (by decide)

/-- Concrete run exercising the summary closed form: 11 user messages on a
fresh key. -/
theorem summary_closed_form_witness :
    ∃ c, MemoryManager.loadConversation
        (MemoryManager.appendAll [] "w4" 0
          (List.replicate 11 witnessUserGreeting))
        "w4" = some c ∧
      c.summary = (if MemoryManager.SUMMARY_MESSAGE_THRESHOLD ≤
            (List.replicate 11 witnessUserGreeting).length
          then some (MemoryManager.generateConversationSummary
            ((List.replicate 11 witnessUserGreeting).take
              MemoryManager.SUMMARY_MESSAGE_THRESHOLD))
          else none) ∧
      (MemoryManager.SUMMARY_MESSAGE_THRESHOLD ≤
          (List.replicate 11 witnessUserGreeting).length →
        ∀ ms2, ms2 ≠ [] →
          ∃ c2, MemoryManager.loadConversation
              (MemoryManager.appendAll
                (MemoryManager.appendAll [] "w4" 0
                  (List.replicate 11 witnessUserGreeting))
                "w4" 0 ms2) "w4" = some c2 ∧
            c2.summary = c.summary) :=
  summary_closed_form [] "w4" 0 _ rfl (by decide)

end Morphic
